import Mathlib

/-!
Verification of the extraction-and-validation core of the activity
extraction pipeline (scripts/ai_extraction): a shallow embedding of
`enhanced_parser.py`, `data_parsing.py` and `data_validation.py`.

Python strings are modelled as `String` and manipulated through their
code-point lists (`String.data`), which matches Python's code-point
indexing and slicing.  Python's `re` patterns used by the source are
embedded via a small backtracking regex engine (`RE`, `matchRE`) that
follows Python semantics for the constructs the source uses: greedy and
lazy class repetition, greedy optional groups, alternation that prefers
the left branch, lookahead and negative lookahead, `$` (end of string or
just before a final newline), leftmost search, and non-overlapping
substitution.  External effects (the LLM response dictionary, the md5
digest, `datetime.now().year`, `requests.head`, `datetime.fromisoformat`
comparison and `difflib` ratios, and CPython's hash-dependent `set`
iteration order) are parameters of the embedding.
-/

namespace Oseddl

/-- Decimal digit characters, used to model Python's `str(int)` / f-string
formatting of a nonnegative integer. -/
def decCharF : Fin 10 → Char
  | 0 => '0' | 1 => '1' | 2 => '2' | 3 => '3' | 4 => '4'
  | 5 => '5' | 6 => '6' | 7 => '7' | 8 => '8' | 9 => '9'

/-- Last decimal digit of `n` as a character. -/
def decChar (n : Nat) : Char := decCharF ⟨n % 10, Nat.mod_lt _ (by norm_num)⟩

/-- Big-endian decimal digits of `n`; `fuel` bounds the recursion and any
`fuel > n` is enough. -/
def decDigitsAux : Nat → Nat → List Char
  | 0, _ => []
  | fuel + 1, n => if n < 10 then [decChar n] else decDigitsAux fuel (n / 10) ++ [decChar n]

/-- Decimal rendering of a natural number, modelling Python's `str`/f-string
formatting of a nonnegative `int`. -/
def decStr (n : Nat) : String := ⟨decDigitsAux (n + 1) n⟩

/-- Numeric value of a digit character. -/
def digitVal (c : Char) : Nat := c.toNat - 48

/-- Models Python `int(s)` on a string of decimal digits. -/
def pyInt (s : String) : Nat := s.data.foldl (fun a c => 10 * a + digitVal c) 0

/-- The whitespace characters recognised by Python's `str.strip()` and the
regex class `\s` (ASCII part; the source never relies on non-ASCII
whitespace). -/
def pySpace (c : Char) : Bool :=
  c = ' ' || c = '\t' || c = '\n' || c = '\x0d' || c = '\x0b' || c = '\x0c'

/-- Strip characters satisfying `p` from both ends of a list. -/
def stripList (p : Char → Bool) (l : List Char) : List Char :=
  ((l.dropWhile p).reverse.dropWhile p).reverse

/-- Models Python `str.strip()` (no argument: whitespace). -/
def pyStrip (s : String) : String := ⟨stripList pySpace s.data⟩

/-- Models Python slicing `s[:n]` (by code points). -/
def pyTake (s : String) (n : Nat) : String := ⟨s.data.take n⟩

/-- ASCII lower-casing of one character, modelling `str.lower()` on the
characters that matter to the slug/keyword logic (every non-ASCII character
is left unchanged; the surrounding code either replaces such characters or
compares them verbatim). -/
def asciiLower (c : Char) : Char :=
  if 'A' ≤ c ∧ c ≤ 'Z' then Char.ofNat (c.toNat + 32) else c

/-- Models Python `str.lower()`. -/
def pyLower (s : String) : String := ⟨s.data.map asciiLower⟩

/-- `listIsPre p l` is true when `p` is a leading segment of `l`. -/
def listIsPre : List Char → List Char → Bool
  | [], _ => true
  | _ :: _, [] => false
  | a :: as, b :: bs => a = b && listIsPre as bs

/-- `containsSub hay needle` models Python's substring test `needle in hay`. -/
def containsSub (hay needle : List Char) : Bool :=
  match hay with
  | [] => listIsPre needle []
  | _ :: t => listIsPre needle hay || containsSub t needle

/-- Split a character list at newline characters, keeping empty pieces:
models Python `str.split('\n')`. -/
def splitNLAux : List Char → List Char → List (List Char)
  | [], acc => [acc.reverse]
  | c :: t, acc => if c = '\n' then acc.reverse :: splitNLAux t [] else splitNLAux t (c :: acc)

/-- Models Python `text.split('\n')`. -/
def splitNL (s : String) : List String := (splitNLAux s.data []).map List.asString

/-! ## A small backtracking regex engine

Only the constructs appearing in the source's patterns are represented.
Captured groups are always character-class repetitions there, so captures
are modelled by a dedicated repetition node. -/

/-- Regex abstract syntax.  `repCls p lo hi lzy` is `p{lo,hi}` (`hi = none`
means unbounded) with `lzy` selecting lazy matching; `grpCls` is the same
repetition, greedy, wrapped in a capturing group. -/
inductive RE where
  | strLit (s : List Char)
  | chClass (p : Char → Bool)
  | seqR (a b : RE)
  | altR (a b : RE)
  | optR (a : RE)
  | repCls (p : Char → Bool) (lo : Nat) (hi : Option Nat) (lzy : Bool)
  | grpCls (p : Char → Bool) (lo : Nat) (hi : Option Nat)
  | lookR (a : RE)
  | nlookR (a : RE)
  | eosR

/-- Try candidate repetition lengths in order, backtracking on failure. -/
def tryCands (f : Nat → Option (List Char × List String)) :
    List Nat → Option (List Char × List String)
  | [] => none
  | n :: ns => (f n).orElse fun _ => tryCands f ns

/-- Candidate lengths for a class repetition whose maximal run is `run`,
bounded by `lo`/`hi`; greedy tries long first, lazy short first. -/
def repCandidates (run lo : Nat) (hi : Option Nat) (lzy : Bool) : List Nat :=
  let m := min run (hi.getD run)
  if m < lo then []
  else if lzy then (List.range (m - lo + 1)).map (fun j => lo + j)
  else (List.range (m - lo + 1)).map (fun j => m - j)

/-- CPS backtracking matcher.  `matchRE r input caps k` tries to match `r`
at the start of `input` with capture list `caps`, calling `k` on the rest
of the input; returns the first (leftmost-biased) overall success. -/
def matchRE : RE → List Char → List String →
    (List Char → List String → Option (List Char × List String)) →
    Option (List Char × List String)
  | .strLit s, input, caps, k =>
      if listIsPre s input then k (input.drop s.length) caps else none
  | .chClass p, input, caps, k =>
      match input with
      | [] => none
      | c :: rest => if p c then k rest caps else none
  | .seqR a b, input, caps, k =>
      matchRE a input caps (fun rest caps' => matchRE b rest caps' k)
  | .altR a b, input, caps, k =>
      (matchRE a input caps k).orElse fun _ => matchRE b input caps k
  | .optR a, input, caps, k =>
      (matchRE a input caps k).orElse fun _ => k input caps
  | .repCls p lo hi lzy, input, caps, k =>
      let run := (input.takeWhile p).length
      tryCands (fun n => k (input.drop n) caps) (repCandidates run lo hi lzy)
  | .grpCls p lo hi, input, caps, k =>
      let run := (input.takeWhile p).length
      tryCands (fun n => k (input.drop n) (caps ++ [(input.take n).asString]))
        (repCandidates run lo hi false)
  | .lookR a, input, caps, k =>
      match matchRE a input caps (fun rest caps' => some (rest, caps')) with
      | some _ => k input caps
      | none => none
  | .nlookR a, input, caps, k =>
      match matchRE a input caps (fun rest caps' => some (rest, caps')) with
      | some _ => none
      | none => k input caps
  | .eosR, input, caps, k =>
      match input with
      | [] => k input caps
      | ['\n'] => k input caps
      | _ => none

/-- Match `r` at the start of `input`, returning the unconsumed rest and
the captures. -/
def matchHere (r : RE) (input : List Char) : Option (List Char × List String) :=
  matchRE r input [] (fun rest caps => some (rest, caps))

/-- Leftmost search, modelling `re.search`: the capture list of the first
(leftmost) position where `r` matches. -/
def searchFrom (r : RE) : List Char → Option (List String)
  | [] => (matchHere r []).map (·.2)
  | c :: t =>
      match matchHere r (c :: t) with
      | some (_, caps) => some caps
      | none => searchFrom r t

/-- `re.search(r, s)`, returning only the captured groups. -/
def reSearch (r : RE) (s : String) : Option (List String) := searchFrom r s.data

/-- `re.match(r, s)` (anchored at the start), returning only success. -/
def reMatchB (r : RE) (s : String) : Bool := (matchHere r s.data).isSome

/-- One pass of `re.sub(r, repl, s)`: scan left to right, replacing each
non-overlapping match by `repl`; an empty match copies one character (the
source's patterns never match the empty string). -/
def subFrom (r : RE) (repl : List Char) : Nat → List Char → List Char
  | 0, l => l
  | _ + 1, [] => []
  | fuel + 1, c :: t =>
      match matchHere r (c :: t) with
      | some (rest, _) =>
          if rest.length = (c :: t).length then c :: subFrom r repl fuel t
          else repl ++ subFrom r repl fuel rest
      | none => c :: subFrom r repl fuel t

/-- `re.sub(r, repl, s)`. -/
def reSub (r : RE) (repl : String) (s : String) : String :=
  ⟨subFrom r repl.data (s.data.length + 1) s.data⟩

/-- Sequence a list of regexes. -/
def seqAll : List RE → RE
  | [] => .strLit []
  | [r] => r
  | r :: rs => .seqR r (seqAll rs)

/-! ## Data model (`data_parsing.py` / `enhanced_parser.py`) -/

/-- `TimelineEvent(deadline, comment)`. -/
structure TimelineEvent where
  deadline : String
  comment : String
deriving DecidableEq

/-- `ActivityEvent`; `timezone` defaults to `"Asia/Shanghai"` as in the
dataclass. -/
structure ActivityEvent where
  year : Int
  id : String
  link : String
  timeline : List TimelineEvent := []
  timezone : String := "Asia/Shanghai"
  date : String := ""
  place : String := ""
deriving DecidableEq

/-- `ParsedActivity`.  The category is modelled by its string value (the
Python `ActivityCategory` is a `str` enum, and `EnhancedDataParser`'s
variant also admits plain strings). -/
structure ParsedActivity where
  title : String
  description : String
  category : String
  tags : List String := []
  events : List ActivityEvent := []
deriving DecidableEq

/-! ## Character classes and patterns of `extract_time_info` -/

/-- `[：:]` (fullwidth or ASCII colon). -/
def colonCls (c : Char) : Bool := c = '：' || c = ':'

/-- `[-~至到]`. -/
def rangeSepCls (c : Char) : Bool := c = '-' || c = '~' || c = '至' || c = '到'

/-- `[-~]`. -/
def isoSepCls (c : Char) : Bool := c = '-' || c = '~'

/-- `[T\s]`. -/
def tOrSpaceCls (c : Char) : Bool := c = 'T' || pySpace c

/-- `[，,\s]`. -/
def commaSpaceCls (c : Char) : Bool := c = '，' || c = ',' || pySpace c

/-- `[（(]`. -/
def openParenCls (c : Char) : Bool := c = '（' || c = '('

/-- `[）)]`. -/
def closeParenCls (c : Char) : Bool := c = '）' || c = ')'

/-- `.` (any character except a newline; the source compiles without
`re.DOTALL`). -/
def dotCls (c : Char) : Bool := c ≠ '\n'

/-- `[0-9:]`. -/
def digitColonCls (c : Char) : Bool := c.isDigit || c = ':'

/-- `[T0-9:]`. -/
def tDigitColonCls (c : Char) : Bool := c = 'T' || c.isDigit || c = ':'

/-- `(\d{4})`. -/
def d4 : RE := .grpCls Char.isDigit 4 (some 4)

/-- `(\d{1,2})`. -/
def d12 : RE := .grpCls Char.isDigit 1 (some 2)

/-- `(\d{2})`. -/
def d22 : RE := .grpCls Char.isDigit 2 (some 2)

/-- `\s*`. -/
def ws0 : RE := .repCls pySpace 0 none false

/-- A literal string regex. -/
def lit (s : String) : RE := .strLit s.data

/-- Priority-1 pattern
`(\d{4})年(\d{1,2})月(\d{1,2})日(?:[（(].*?[）)])?\s*(\d{1,2}):(\d{2})\s*[-~至到]\s*(\d{1,2}):(\d{2})`. -/
def p1cjk : RE := seqAll [d4, lit "年", d12, lit "月", d12, lit "日",
  .optR (seqAll [.chClass openParenCls, .repCls dotCls 0 none true, .chClass closeParenCls]),
  ws0, d12, lit ":", d22, ws0, .chClass rangeSepCls, ws0, d12, lit ":", d22]

/-- Priority-1 pattern
`(\d{4})-(\d{1,2})-(\d{1,2})[T\s]+(\d{1,2}):(\d{2})\s*[-~至到]\s*(\d{1,2}):(\d{2})`. -/
def p1num : RE := seqAll [d4, lit "-", d12, lit "-", d12,
  .repCls tOrSpaceCls 1 none false, d12, lit ":", d22, ws0, .chClass rangeSepCls,
  ws0, d12, lit ":", d22]

/-- Priority-2 pattern: two full ISO-8601 stamps joined by `\s*[-~]\s*`. -/
def isoRangePat : RE := seqAll [d4, lit "-", d12, lit "-", d12, lit "T", d12,
  lit ":", d22, lit ":", d22, ws0, .chClass isoSepCls, ws0,
  d4, lit "-", d12, lit "-", d12, lit "T", d12, lit ":", d22, lit ":", d22]

/-- `(?:开始|start)[：:]\s*(\d{4})年(\d{1,2})月(\d{1,2})日[，,\s]+(\d{1,2}):(\d{2})`. -/
def startPat : RE := seqAll [.altR (lit "开始") (lit "start"), .chClass colonCls, ws0,
  d4, lit "年", d12, lit "月", d12, lit "日", .repCls commaSpaceCls 1 none false,
  d12, lit ":", d22]

/-- `(?:结束|end)[：:]\s*(\d{4})年(\d{1,2})月(\d{1,2})日[，,\s]+(\d{1,2}):(\d{2})`. -/
def endPat : RE := seqAll [.altR (lit "结束") (lit "end"), .chClass colonCls, ws0,
  d4, lit "年", d12, lit "月", d12, lit "日", .repCls commaSpaceCls 1 none false,
  d12, lit ":", d22]

/-- `(\d{4})年(\d{1,2})月(\d{1,2})日(?![0-9:])`. -/
def single1 : RE := seqAll [d4, lit "年", d12, lit "月", d12, lit "日",
  .nlookR (.chClass digitColonCls)]

/-- `(\d{4})-(\d{1,2})-(\d{1,2})(?![T0-9:])`. -/
def single2 : RE := seqAll [d4, lit "-", d12, lit "-", d12,
  .nlookR (.chClass tDigitColonCls)]

/-- `time[：:]\s*(\d{4})-(\d{1,2})-(\d{1,2})`. -/
def single3 : RE := seqAll [lit "time", .chClass colonCls, ws0, d4, lit "-", d12, lit "-", d12]

/-- The seven integer groups of a priority-1 match. -/
structure G7 where
  y : Nat
  mo : Nat
  d : Nat
  h1 : Nat
  m1 : Nat
  h2 : Nat
  m2 : Nat
deriving DecidableEq

/-- The twelve integer groups of an ISO-range match. -/
structure G12 where
  sy : Nat
  sm : Nat
  sd : Nat
  sh : Nat
  smi : Nat
  ss : Nat
  ey : Nat
  em : Nat
  ed : Nat
  eh : Nat
  emi : Nat
  es : Nat
deriving DecidableEq

/-- The five integer groups of a start/end match. -/
structure G5 where
  y : Nat
  mo : Nat
  d : Nat
  h : Nat
  mi : Nat
deriving DecidableEq

/-- Three integer groups of a bare-date match. -/
structure G3 where
  y : Nat
  mo : Nat
  d : Nat
deriving DecidableEq

/-- Unpack and `int()` the seven groups of a priority-1 match; a group-count
mismatch plays the role of the source's `except` (treated as a non-match). -/
def g7 : List String → Option G7
  | [a, b, c, d, e, f, g] =>
      some ⟨pyInt a, pyInt b, pyInt c, pyInt d, pyInt e, pyInt f, pyInt g⟩
  | _ => none

/-- Unpack the twelve groups of an ISO-range match. -/
def g12 : List String → Option G12
  | [a, b, c, d, e, f, g, h, i, j, k, l] =>
      some ⟨pyInt a, pyInt b, pyInt c, pyInt d, pyInt e, pyInt f,
            pyInt g, pyInt h, pyInt i, pyInt j, pyInt k, pyInt l⟩
  | _ => none

/-- Unpack the five groups of a start/end match. -/
def g5 : List String → Option G5
  | [a, b, c, d, e] => some ⟨pyInt a, pyInt b, pyInt c, pyInt d, pyInt e⟩
  | _ => none

/-- Unpack the first three groups (`match.groups()[:3]`). -/
def g3 : List String → Option G3
  | a :: b :: c :: _ => some ⟨pyInt a, pyInt b, pyInt c⟩
  | _ => none

/-- `f"{n:02d}"`. -/
def fmt2 (n : Nat) : String := if n < 10 then "0" ++ decStr n else decStr n

/-- `f"{year}-{month:02d}-{day:02d}"`. -/
def fmtDate (y mo d : Nat) : String := decStr y ++ "-" ++ fmt2 mo ++ "-" ++ fmt2 d

/-- The priority-1 loop of `extract_time_info`: the two full date+time-range
patterns are tried in order. -/
def priority1 (text : String) : Option G7 :=
  ((reSearch p1cjk text).bind g7).orElse fun _ => (reSearch p1num text).bind g7

/-- The priority-4 loop of `extract_time_info`: the three bare-date patterns
tried in order. -/
def singleDate (text : String) : Option G3 :=
  (((reSearch single1 text).bind g3).orElse fun _ =>
    (reSearch single2 text).bind g3).orElse fun _ =>
    (reSearch single3 text).bind g3

/-- `EnhancedDataParser.extract_time_info`: layered regex extraction of a
date string and timeline events, returning on the first successful layer. -/
def extract_time_info (text : String) : Option String × List TimelineEvent :=
  match priority1 text with
  | some ⟨y, mo, d, h1, m1, h2, m2⟩ =>
      let date_str := fmtDate y mo d
      (some date_str,
        [⟨date_str ++ "T" ++ fmt2 h1 ++ ":" ++ fmt2 m1 ++ ":00", "活动开始"⟩,
         ⟨date_str ++ "T" ++ fmt2 h2 ++ ":" ++ fmt2 m2 ++ ":00", "活动结束"⟩])
  | none =>
  match (reSearch isoRangePat text).bind g12 with
  | some ⟨sy, sm, sd, sh, smi, ss, ey, em, ed, eh, emi, es⟩ =>
      (some (fmtDate sy sm sd),
        [⟨fmtDate sy sm sd ++ "T" ++ fmt2 sh ++ ":" ++ fmt2 smi ++ ":" ++ fmt2 ss, "活动开始"⟩,
         ⟨fmtDate ey em ed ++ "T" ++ fmt2 eh ++ ":" ++ fmt2 emi ++ ":" ++ fmt2 es, "活动结束"⟩])
  | none =>
  match (reSearch startPat text).bind g5, (reSearch endPat text).bind g5 with
  | some ⟨sy, sm, sd, sh, smi⟩, some ⟨ey, em, ed, eh, emi⟩ =>
      (some (fmtDate sy sm sd),
        [⟨fmtDate sy sm sd ++ "T" ++ fmt2 sh ++ ":" ++ fmt2 smi ++ ":00", "活动开始"⟩,
         ⟨fmtDate ey em ed ++ "T" ++ fmt2 eh ++ ":" ++ fmt2 emi ++ ":00", "活动结束"⟩])
  | _, _ =>
  match singleDate text with
  | some ⟨y, mo, d⟩ =>
      let date_str := fmtDate y mo d
      (some date_str, [⟨date_str ++ "T00:00:00", "关键日期"⟩])
  | none => (none, [])

/-! ## `extract_place_info` -/

/-- The capture class `[^\n。，；；\|]` of the place patterns. -/
def placeCls (c : Char) : Bool :=
  !(c = '\n' || c = '。' || c = '，' || c = '；' || c = '|')

/-- The fullwidth punctuation class `[，；；]`. -/
def fwPunctCls (c : Char) : Bool := c = '，' || c = '；'

/-- `(?:地点|地址|举办地点|举办地)[：:]\s*([^\n。，；；\|]+)`. -/
def placePat1 : RE := seqAll
  [.altR (lit "地点") (.altR (lit "地址") (.altR (lit "举办地点") (lit "举办地"))),
   .chClass colonCls, ws0, .grpCls placeCls 1 none]

/-- `(?:Location|Place)[：:]\s*([^\n。，；；\|]+)`. -/
def placePat2 : RE := seqAll
  [.altR (lit "Location") (lit "Place"), .chClass colonCls, ws0, .grpCls placeCls 1 none]

/-- `📍\s*([^\n。，；；\|]+)`. -/
def placePat3 : RE := seqAll [lit "📍", ws0, .grpCls placeCls 1 none]

/-- The trailing-context lookahead `(?=\s*[，；；]|$)` shared by the cleanup
patterns. -/
def cleanupLook : RE := .lookR (.altR (.seqR ws0 (.chClass fwPunctCls)) .eosR)

/-- The seven cleanup substitutions of `extract_place_info`, in source
order (the `re.IGNORECASE` flag is immaterial: no pattern contains a cased
letter). -/
def removeKeywords : List RE :=
  [seqAll [lit "推荐", .repCls dotCls 0 none true, cleanupLook],
   seqAll [.chClass fwPunctCls, ws0,
     .altR (lit "停车") (.altR (lit "地铁") (.altR (lit "公交") (.altR (lit "地铁线路")
       (.altR (lit "公交车") (.altR (lit "距离") (.altR (lit "附近") (.altR (lit "推荐")
         (.altR (lit "步行") (.altR (lit "开车") (lit "乘坐")))))))))),
     .repCls dotCls 0 none true, cleanupLook],
   seqAll [.chClass fwPunctCls, ws0, .repCls Char.isDigit 1 none false, lit "元/小时",
     .repCls dotCls 0 none true, cleanupLook],
   seqAll [.chClass fwPunctCls, ws0, .repCls Char.isDigit 1 none false,
     .altR (lit "号线") (.altR (lit "路") (lit "米")),
     .repCls dotCls 0 none true, cleanupLook],
   seqAll [lit "点击报名", .repCls dotCls 0 none true, .eosR],
   seqAll [lit "长按", .repCls dotCls 0 none true, .eosR],
   seqAll [lit "扫描", .repCls dotCls 0 none true, .eosR]]

/-- `[，；；]$`, the final trailing-punctuation substitution. -/
def fwPunctEnd : RE := .seqR (.chClass fwPunctCls) .eosR

/-- A CJK character (`[一-龥]`) or an ASCII letter, the class of
the final `re.search(r'[一-龥a-zA-Z]+', place)` check. -/
def letterCJK (c : Char) : Bool :=
  (0x4e00 ≤ c.toNat && c.toNat ≤ 0x9fa5) || ('a' ≤ c && c ≤ 'z') || ('A' ≤ c && c ≤ 'Z')

/-- `[一-龥a-zA-Z]+` as a regex. -/
def letterCJKPlus : RE := .repCls letterCJK 1 none false

/-- The place-pattern loop: the first pattern with a match supplies
`match.group(1)`. -/
def placeSearchRaw (text : String) : Option String :=
  (((reSearch placePat1 text).orElse fun _ => reSearch placePat2 text).orElse fun _ =>
    reSearch placePat3 text).bind (fun caps => caps.head?)

/-- The cleanup applied to a matched place after the initial `strip()`:
the seven keyword substitutions, a `strip()`, then the trailing
`[，；；]$` substitution. -/
def placeCleanup (place : String) : String :=
  reSub fwPunctEnd "" (pyStrip (removeKeywords.foldl (fun p r => reSub r "" p) place))

/-- `EnhancedDataParser.extract_place_info`. -/
def extract_place_info (text : String) : Option String :=
  match placeSearchRaw text with
  | none => none
  | some g =>
      let place := pyStrip g
      if place = "" then none
      else
        let place := placeCleanup place
        if place ≠ "" ∧ place.length > 3 then
          let place80 := pyTake place 80
          if (reSearch letterCJKPlus place80).isSome then some place80 else none
        else none

/-! ## `extract_description`, `extract_tags`, `parse` -/

/-- The accumulation loop of `extract_description`: append each stripped
non-empty line not starting with `时间`/`地点`, stopping once the
accumulator exceeds 200 characters. -/
def descLoop : List String → String → String
  | [], acc => acc
  | l :: ls, acc =>
      let line := pyStrip l
      if line ≠ "" ∧ ¬listIsPre "时间".data line.data ∧ ¬listIsPre "地点".data line.data then
        let acc' := acc ++ line ++ " "
        if acc'.length > 200 then acc' else descLoop ls acc'
      else descLoop ls acc

/-- `EnhancedDataParser.extract_description`. -/
def extract_description (text : String) : String :=
  let description := descLoop (splitNL text) ""
  if description = "" then "活动信息" else pyTake description 300

/-- The fixed keyword table of `extract_tags`, in its Python dict insertion
(= iteration) order. -/
def tagKeywords : List (String × List String) :=
  [("开源", ["开源", "open source", "opensource"]),
   ("校园", ["大学", "高校", "校园", "university", "campus"]),
   ("会议", ["会议", "conference", "summit"]),
   ("竞赛", ["竞赛", "competition", "比赛", "contest"]),
   ("讲座", ["讲座", "talk", "seminar"]),
   ("工作坊", ["工作坊", "workshop", "研讨"])]

/-- The tag list accumulated by the keyword loop of `extract_tags`, in
table iteration order (the loop `break`s after the first matching keyword
of each entry, so each tag is appended at most once). -/
def ruleTagsOrdered (title text : String) : List String :=
  let combined := pyLower (title ++ " " ++ text)
  tagKeywords.filterMap fun kv =>
    if kv.2.any (fun kw => containsSub combined.data (pyLower kw).data) then some kv.1
    else none

/-- A function is an admissible model of CPython's `list(set(·))` when it
removes duplicates and otherwise only reorders (the actual order depends on
per-process string hashing and is not observable from the source). -/
def SetOrderSpec (f : List String → List String) : Prop :=
  ∀ l : List String, (f l).Nodup ∧ ∀ x : String, x ∈ f l ↔ x ∈ l

/-- `EnhancedDataParser.extract_tags`, parameterised by the `list(set(·))`
iteration order `setOrder`. -/
def extract_tags (setOrder : List String → List String) (title text : String) :
    List String :=
  (setOrder (ruleTagsOrdered title text)).take 5

/-! ## The LLM field dictionary and `EnhancedDataParser.parse`

`_parse_with_llm` returns a JSON-derived dictionary; its fields are
modelled with `Option` for possibly-missing keys (`dict.get`). -/

/-- One element of an LLM event's `timeline` list. -/
structure LLMTimelineItem where
  deadline : String
  comment : String
deriving DecidableEq

/-- One element of the LLM `events` list (only its `timeline` key is read
by `parse`). -/
structure LLMEvent where
  timeline : List LLMTimelineItem := []
deriving DecidableEq

/-- The dictionary returned by `_parse_with_llm`. -/
structure LLMResult where
  title : Option String := none
  description : Option String := none
  category : Option String := none
  tags : Option (List String) := none
  events : Option (List LLMEvent) := none

/-- The first LLM event's timeline (`llm_result['events'][0].get('timeline', [])`),
empty when `events` is missing or empty. -/
def llmTimelineOf (llm : LLMResult) : List LLMTimelineItem :=
  match llm.events with
  | some (e :: _) => e.timeline
  | _ => []

/-- The timeline-reconciliation block of `parse` (lines 322–330): replace the
pattern-extracted timeline by the LLM one when the LLM supplies a
non-empty, strictly longer timeline. -/
def reconcileTimeline (llm : LLMResult) (timeline : List TimelineEvent) :
    List TimelineEvent :=
  match llm.events with
  | some (e :: _) =>
      let llm_timeline := e.timeline
      if llm_timeline.isEmpty then timeline
      else if timeline.length < llm_timeline.length then
        llm_timeline.map fun t => ⟨t.deadline, t.comment⟩
      else timeline
  | _ => timeline

/-- `ActivityCategory(category_str)` with the `except` fallback to
`ACTIVITY`: any string other than the three enum values collapses to
`"activity"`. -/
def coerceCategory (category_str : String) : String :=
  if category_str = "conference" ∨ category_str = "competition" ∨ category_str = "activity"
  then category_str else "activity"

/-- Hexadecimal digit characters of `hexdigest`. -/
def hexCharF : Fin 16 → Char
  | 0 => '0' | 1 => '1' | 2 => '2' | 3 => '3' | 4 => '4' | 5 => '5' | 6 => '6' | 7 => '7'
  | 8 => '8' | 9 => '9' | 10 => 'a' | 11 => 'b' | 12 => 'c' | 13 => 'd' | 14 => 'e' | _ => 'f'

/-- The two lowercase hex characters of one digest byte. -/
def byteHex (b : Fin 256) : List Char :=
  [hexCharF ⟨b.val / 16, by omega⟩, hexCharF ⟨b.val % 16, Nat.mod_lt _ (by norm_num)⟩]

/-- The environment of `EnhancedDataParser.parse`: the md5 digest (an
external hash, modelled as an arbitrary byte-sequence function), the
`list(set(·))` iteration order, and `datetime.now().year`. -/
structure ParseEnv where
  md5 : String → List (Fin 256)
  setOrder : List String → List String
  nowYear : Int

namespace EnhancedDataParser

/-- `EnhancedDataParser._generate_id`:
`hashlib.md5(title.encode()).hexdigest()[:8]`. -/
def generate_id (md5 : String → List (Fin 256)) (title : String) : String :=
  ⟨(((md5 title).map byteHex).flatten).take 8⟩

/-- `EnhancedDataParser.parse`, with the awaited `_parse_with_llm` result
supplied as `llm`. -/
def parse (env : ParseEnv) (llm : LLMResult) (extracted_text : String)
    (source_url : Option String) : ParsedActivity :=
  let dt := extract_time_info extracted_text
  let date_str := dt.1
  let timeline := dt.2
  let place := extract_place_info extracted_text
  let title := llm.title.getD "活动"
  let description := llm.description.getD ""
  let category_str := llm.category.getD "activity"
  let llm_tags := llm.tags.getD []
  let timeline := reconcileTimeline llm timeline
  let category := coerceCategory category_str
  let rule_tags := extract_tags env.setOrder title extracted_text
  let tags0 := if llm_tags.isEmpty then [] else llm_tags
  let tags1 := tags0 ++ rule_tags.filter (fun t => ¬ tags0.contains t)
  let tags := tags1.take 5
  let description :=
    if description = "" then extract_description extracted_text else description
  let event : ActivityEvent :=
    { year := env.nowYear
      id := generate_id env.md5 title
      link := source_url.getD ""
      date := (date_str.getD "")
      place := (place.getD "")
      timeline := timeline }
  { title := title
    description := description
    category := category
    tags := tags
    events := [event] }

end EnhancedDataParser
/-! ## ID slug generation (`data_parsing.py`) -/

/-- A character allowed in a slug: `[a-z0-9-]`. -/
def slugChar (c : Char) : Bool :=
  ('a' ≤ c && c ≤ 'z') || c.isDigit || c = '-'

/-- The class `[^a-z0-9\-]` of the first slug substitution. -/
def nonSlugCls (c : Char) : Bool := !slugChar c

/-- `-+` as a regex. -/
def dashRun : RE := .repCls (fun c => c = '-') 1 none false

/-- The three-step slug normalisation shared by `SimpleDataParser._generate_id`,
`DataParser._create_fallback_activity` and `DataValidator._normalize_id`:
substitute every character outside `[a-z0-9-]` with `-`, collapse `-` runs,
strip leading/trailing `-`. -/
def slugSteps (id_str : String) : String :=
  ⟨stripList (fun c => c = '-') (reSub dashRun "-" (reSub (.chClass nonSlugCls) "-" id_str)).data⟩

namespace SimpleDataParser

/-- `SimpleDataParser._generate_id(title, year)`:
slug-normalise `f"{title.lower()}-{year}"`. -/
def generate_id (title : String) (year : Nat) : String :=
  slugSteps (pyLower title ++ "-" ++ decStr year)

end SimpleDataParser

namespace DataParser

/-- The ID built inline by `DataParser._create_fallback_activity`
(lines 336–338) from the activity hint `title` and the extracted `year`;
textually the same three substitutions as `SimpleDataParser._generate_id`. -/
def fallback_id (title : String) (year : Nat) : String :=
  slugSteps (pyLower title ++ "-" ++ decStr year)

end DataParser

/-- `DataValidator._normalize_id`. -/
def normalize_id (id_str : String) : String := slugSteps (pyLower id_str)

/-! ## Data validation (`data_validation.py`)

External calls of the validator — `datetime.fromisoformat`,
`requests.head`, `difflib.SequenceMatcher.ratio` — and the configuration
and corpus loaded at construction time are parameters (`ValidatorEnv`). -/

/-- `ErrorLevel`. -/
inductive ErrorLevel where
  | error
  | warning
  | info
deriving DecidableEq

/-- `ValidationIssue`. -/
structure ValidationIssue where
  field : String
  issue : String
  level : ErrorLevel
  suggestion : Option String := none
deriving DecidableEq

/-- `ValidationResult`. -/
structure ValidationResult where
  is_valid : Bool
  errors : List ValidationIssue := []
  warnings : List ValidationIssue := []
  suggestions : List ValidationIssue := []
deriving DecidableEq

/-- The contribution of one checking step to the three issue lists (the
source mutates `result` in place; appends within each list keep call
order, so the lists concatenate). -/
structure Delta where
  errors : List ValidationIssue := []
  warnings : List ValidationIssue := []
  suggestions : List ValidationIssue := []
deriving DecidableEq

/-- The validator's configuration, corpus snapshot and external oracles:
`descriptionMaxLength`/`validateLinks` from `settings`, `ianaTimezones`
from `config.IANA_TIMEZONES`, `existingIds`/`existingTags` as loaded by
`_extract_all_ids`/`_extract_all_tags`, `isoValid` for
`_is_valid_iso8601`'s `fromisoformat` call, `dtLt curr prev` for the
`fromisoformat` comparison (`none` models a `ValueError`), `headResult`
for `requests.head` (status code or exception text), and `similarRatio`
for `SequenceMatcher(None, tag, existing).ratio() >= threshold`. -/
structure ValidatorEnv where
  descriptionMaxLength : Nat
  validateLinks : Bool
  ianaTimezones : List String
  existingIds : List String
  existingTags : List String
  isoValid : String → Bool
  dtLt : String → String → Option Bool
  headResult : String → Except String Nat
  similarRatio : String → String → Bool

/-- Decimal rendering of a Python `int` (f-string interpolation). -/
def intStr (i : Int) : String :=
  if i < 0 then "-" ++ decStr i.natAbs else decStr i.toNat

/-- `f'events[{event_idx}]'`. -/
def fieldPfx (i : Nat) : String := "events[" ++ decStr i ++ "]"

/-- `^[a-z0-9\-]+$` (under `re.match`). -/
def idFormatPat : RE := .seqR (.repCls slugChar 1 none false) .eosR

/-- `re.match(r'^[a-z0-9\-]+$', id_str)` as a Boolean. -/
def idFormatOk (id_str : String) : Bool := reMatchB idFormatPat id_str

/-- `^https?://[^\s]+` (under `re.match`). -/
def linkFormatPat : RE :=
  seqAll [lit "http", .optR (lit "s"), lit "://", .repCls (fun c => !pySpace c) 1 none false]

/-- `re.match(r'^https?://[^\s]+', link)` as a Boolean. -/
def linkFormatOk (link : String) : Bool := reMatchB linkFormatPat link

namespace DataValidator

/-- `DataValidator._validate_basic_info`. -/
def validate_basic_info (env : ValidatorEnv) (a : ParsedActivity) : Delta :=
  { errors :=
      (if a.title = "" ∨ (pyStrip a.title).length = 0 then
        [⟨"title", "标题不能为空", .error, none⟩] else []) ++
      (if a.category = "" then [⟨"category", "活动分类不能为空", .error, none⟩] else [])
    warnings :=
      if a.description = "" ∨ (pyStrip a.description).length = 0 then
        [⟨"description", "缺少活动描述", .warning, some "请添加一句话描述活动"⟩]
      else if env.descriptionMaxLength < a.description.length then
        [⟨"description",
          "描述过长 (" ++ decStr a.description.length ++ " > " ++
            decStr env.descriptionMaxLength ++ ")", .warning,
          some ("请将描述缩短为 " ++ decStr env.descriptionMaxLength ++ " 字以内")⟩]
      else [] }

/-- `DataValidator._validate_id`. -/
def validate_id (env : ValidatorEnv) (id_str : String) (event_idx : Nat) :
    List ValidationIssue :=
  let field := fieldPfx event_idx ++ ".id"
  if ¬ idFormatOk id_str then
    [⟨field, "ID格式不正确（仅允许小写字母、数字和连字符）", .error,
      some ("建议: " ++ normalize_id id_str)⟩]
  else if id_str ∈ env.existingIds then
    [⟨field, "ID已存在: " ++ id_str, .error, some "请更改ID或检查是否重复添加"⟩]
  else []

/-- `DataValidator._check_link_accessibility`. -/
def check_link_accessibility (env : ValidatorEnv) (link : String) (event_idx : Nat) :
    Delta :=
  let field := fieldPfx event_idx ++ ".link"
  match env.headResult link with
  | .ok code =>
      if 400 ≤ code then
        { warnings := [⟨field, "链接无法访问 (HTTP " ++ decStr code ++ ")", .warning, none⟩] }
      else {}
  | .error e =>
      { suggestions := [⟨field, "无法验证链接可访问性: " ++ pyTake e 50, .info, none⟩] }

/-- `DataValidator._validate_link`. -/
def validate_link (env : ValidatorEnv) (link : String) (event_idx : Nat) : Delta :=
  if ¬ linkFormatOk link then
    { errors := [⟨fieldPfx event_idx ++ ".link",
        "链接格式不正确（必须以http://或https://开头）", .error, none⟩] }
  else if env.validateLinks then check_link_accessibility env link event_idx
  else {}

/-- `DataValidator._validate_timezone`. -/
def validate_timezone (env : ValidatorEnv) (tz : String) (event_idx : Nat) :
    List ValidationIssue :=
  if tz ∉ env.ianaTimezones ∧ tz ≠ "UTC" then
    [⟨fieldPfx event_idx ++ ".timezone", "时区无效: " ++ tz, .error,
      some "请使用标准IANA时区名称，如: Asia/Shanghai"⟩]
  else []

/-- The `for timeline_idx, event_item in enumerate(timeline)` loop of
`_validate_timeline`: `prev` carries `previous_deadline` (not updated when
the `continue` branch fires), and the error/warning streams are returned
in iteration order. -/
def validate_timeline_loop (env : ValidatorEnv) (pfx : String) (prev : Option String)
    (idx : Nat) : List TimelineEvent →
    List ValidationIssue × List ValidationIssue
  | [] => ([], [])
  | t :: ts =>
      if ¬ env.isoValid t.deadline then
        let r := validate_timeline_loop env pfx prev (idx + 1) ts
        (⟨pfx ++ "[" ++ decStr idx ++ "].deadline", "时间格式不正确: " ++ t.deadline,
          .error, some "请使用ISO 8601格式: YYYY-MM-DDTHH:mm:ss"⟩ :: r.1, r.2)
      else
        let ordWarn :=
          match prev with
          | some p =>
              if p = "" then []
              else
                match env.dtLt t.deadline p with
                | some true =>
                    [⟨pfx ++ "[" ++ decStr idx ++ "].deadline",
                      "时间顺序不正确（当前时间早于前一个时间）", .warning, none⟩]
                | _ => []
          | none => []
        let commentWarn :=
          if t.comment = "" ∨ (pyStrip t.comment).length = 0 then
            [⟨pfx ++ "[" ++ decStr idx ++ "].comment", "时间说明不能为空", .warning, none⟩]
          else []
        let r := validate_timeline_loop env pfx (some t.deadline) (idx + 1) ts
        (r.1, ordWarn ++ commentWarn ++ r.2)

/-- `DataValidator._validate_timeline`. -/
def validate_timeline (env : ValidatorEnv) (timeline : List TimelineEvent)
    (event_idx : Nat) : Delta :=
  let r := validate_timeline_loop env (fieldPfx event_idx ++ ".timeline") none 0 timeline
  { errors := r.1, warnings := r.2 }

/-- `DataValidator._validate_event`. -/
def validate_event (env : ValidatorEnv) (e : ActivityEvent) (event_idx : Nat) : Delta :=
  let pfx := fieldPfx event_idx
  let yearErr :=
    if e.year ≤ 1900 ∨ 2100 < e.year then
      [⟨pfx ++ ".year", "年份不合理: " ++ intStr e.year, .error, none⟩]
    else []
  let idErrs :=
    if e.id = "" then [⟨pfx ++ ".id", "ID不能为空", .error, none⟩]
    else validate_id env e.id event_idx
  let linkDelta :=
    if e.link = "" then
      { warnings := [⟨pfx ++ ".link", "缺少活动链接", .warning, none⟩] : Delta }
    else validate_link env e.link event_idx
  let tzErrs :=
    if e.timezone = "" then [⟨pfx ++ ".timezone", "时区不能为空", .error, none⟩]
    else validate_timezone env e.timezone event_idx
  let tlDelta :=
    if e.timeline = [] then
      { warnings := [⟨pfx ++ ".timeline", "缺少关键时间点", .warning, none⟩] : Delta }
    else validate_timeline env e.timeline event_idx
  let placeW :=
    if e.place = "" then [⟨pfx ++ ".place", "缺少地点信息", .warning, none⟩] else []
  let dateW :=
    if e.date = "" then [⟨pfx ++ ".date", "缺少人类可读的日期范围", .warning, none⟩] else []
  { errors := yearErr ++ idErrs ++ linkDelta.errors ++ tzErrs ++ tlDelta.errors
    warnings := linkDelta.warnings ++ tlDelta.warnings ++ placeW ++ dateW
    suggestions := linkDelta.suggestions }

/-- `DataValidator._find_similar_tags` (with the default threshold baked
into `similarRatio`). -/
def find_similar_tags (env : ValidatorEnv) (tag : String) : List String :=
  env.existingTags.filter (fun et => env.similarRatio tag et && tag ≠ et)

/-- `DataValidator._validate_tags` (produces only suggestions). -/
def validate_tags (env : ValidatorEnv) (a : ParsedActivity) : List ValidationIssue :=
  if a.tags = [] then
    [⟨"tags", "未添加任何标签", .info, some "建议添加3-5个相关标签"⟩]
  else
    (a.tags.enum.map fun p =>
      let similar := find_similar_tags env p.2
      if similar ≠ [] ∧ p.2 ∉ env.existingTags then
        [⟨"tags[" ++ decStr p.1 ++ "]", "标签\"" ++ p.2 ++ "\"与现有标签相似", .info,
          some ("使用现有标签: " ++ String.intercalate ", " similar)⟩]
      else []).flatten

/-- `DataValidator._validate_overall`. -/
def validate_overall (a : ParsedActivity) : List ValidationIssue :=
  if a.events = [] then [⟨"events", "至少需要一个事件", .error, none⟩] else []

/-- `DataValidator.validate`: run every check, then set
`is_valid := len(result.errors) == 0`. -/
def validate (env : ValidatorEnv) (a : ParsedActivity) : ValidationResult :=
  let basic := validate_basic_info env a
  let evDeltas := a.events.enum.map fun p => validate_event env p.2 p.1
  let tagSuggs := validate_tags env a
  let overall := validate_overall a
  let errors := basic.errors ++ (evDeltas.map (·.errors)).flatten ++ overall
  let warnings := basic.warnings ++ (evDeltas.map (·.warnings)).flatten
  let suggestions := basic.suggestions ++ (evDeltas.map (·.suggestions)).flatten ++ tagSuggs
  { is_valid := errors.isEmpty
    errors := errors
    warnings := warnings
    suggestions := suggestions }

end DataValidator
/-! ## Claim-level auxiliary definitions -/

/-- The matched place after `strip()` and the cleanup substitutions of
`extract_place_info` (the intermediate value the length/letter gate is
applied to). -/
def placeCleaned (text : String) : Option String :=
  (placeSearchRaw text).map fun g => placeCleanup (pyStrip g)

/-- A concrete admissible `list(set(·))` iteration order: deduplicate,
then reverse. -/
def revSetOrder (l : List String) : List String := l.dedup.reverse

/-- An input whose place capture is eighty `'1'`s followed by `'a'`. -/
def c7text : String := "地点：" ++ ⟨List.replicate 80 '1'⟩ ++ "a"

/-- The cleaned place that `c7text` produces. -/
def c7cleaned : String := ⟨List.replicate 80 '1' ++ ['a']⟩

/-- `-` is absent from adjacent positions: the relation underlying
"no two consecutive hyphens". -/
def notDD (a b : Char) : Prop := ¬(a = '-' ∧ b = '-')

/-- The shape every generated ID must have per the spec: characters in
`[a-z0-9-]`, no leading or trailing hyphen, no doubled hyphen. -/
def slugOk (s : String) : Prop :=
  (∀ c ∈ s.data, slugChar c) ∧ s.data.head? ≠ some '-' ∧
    s.data.getLast? ≠ some '-' ∧ List.Chain' notDD s.data
/-- A concrete validator environment for exercising the duplicate-id
check: the corpus contains exactly the id `"ospp-2025"`. -/
def c4Env : ValidatorEnv :=
  { descriptionMaxLength := 100
    validateLinks := false
    ianaTimezones := ["Asia/Shanghai"]
    existingIds := ["ospp-2025"]
    existingTags := []
    isoValid := fun _ => false
    dtLt := fun _ _ => none
    headResult := fun _ => .error "unreachable"
    similarRatio := fun _ _ => false }

/-- A concrete event that reuses the corpus id. -/
def c4Event : ActivityEvent :=
  { year := 2025, id := "ospp-2025", link := "", timeline := [],
    timezone := "Asia/Shanghai", date := "", place := "" }

/-- A concrete activity whose only event reuses the corpus id. -/
def c4Activity : ParsedActivity :=
  { title := "开源之夏"
    description := "一句话描述"
    category := "activity"
    tags := []
    events := [c4Event] }

/-! ## Claim theorems -/

/-- Claim C1: whenever the first-priority date+time-range patterns (CJK or
numeric form) match the input, `extract_time_info` returns the matched
date string together with exactly two timeline events labelled 活动开始 /
活动结束 whose deadlines both carry the matched date, and the result is
fully determined by that first match (lower-priority patterns are not
consulted). -/
theorem extract_time_info_priority1 (text : String) (y mo d h1 m1 h2 m2 : Nat)
    (h : priority1 text = some ⟨y, mo, d, h1, m1, h2, m2⟩) :
    extract_time_info text =
      (some (fmtDate y mo d),
        [⟨fmtDate y mo d ++ "T" ++ fmt2 h1 ++ ":" ++ fmt2 m1 ++ ":00", "活动开始"⟩,
         ⟨fmtDate y mo d ++ "T" ++ fmt2 h2 ++ ":" ++ fmt2 m2 ++ ":00", "活动结束"⟩]) := by
  unfold extract_time_info
  rw [h]

/-- Witness for C1 at a concrete CJK range input. -/
theorem extract_time_info_priority1_witness :
    priority1 "2025年6月4日 09:00-18:00" = some ⟨2025, 6, 4, 9, 0, 18, 0⟩ ∧
    extract_time_info "2025年6月4日 09:00-18:00" =
      (some "2025-06-04",
        [⟨"2025-06-04T09:00:00", "活动开始"⟩, ⟨"2025-06-04T18:00:00", "活动结束"⟩]) :=
  ⟨by decide,
   (extract_time_info_priority1 "2025年6月4日 09:00-18:00" 2025 6 4 9 0 18 0
      (by decide)).trans (by decide)⟩

/-- Claim C9: on every input, `extract_time_info` produces at most two
timeline events, and it produces a date string exactly when it produces at
least one timeline event. -/
theorem extract_time_info_shape (text : String) :
    (extract_time_info text).2.length ≤ 2 ∧
      ((extract_time_info text).1 = none ↔ (extract_time_info text).2 = []) := by
  unfold extract_time_info
  repeat' split
  all_goals simp

/-- Claim C2: the reconciled event's timeline is the LLM timeline exactly
when the LLM supplied a non-empty first-event timeline strictly longer
than the pattern-extracted one; otherwise (tie, shorter, empty, or no
`events`) it is the pattern-extracted timeline. -/
theorem parse_timeline_choice (env : ParseEnv) (llm : LLMResult) (text : String)
    (url : Option String) :
    (EnhancedDataParser.parse env llm text url).events.map (fun e => e.timeline) =
      [if llmTimelineOf llm ≠ [] ∧
          (extract_time_info text).2.length < (llmTimelineOf llm).length then
        (llmTimelineOf llm).map (fun t => ⟨t.deadline, t.comment⟩)
       else (extract_time_info text).2] := by
  show [reconcileTimeline llm (extract_time_info text).2] = _
  unfold reconcileTimeline llmTimelineOf
  rcases llm.events with _ | (_ | ⟨e, es⟩)
  · simp
  · simp
  · by_cases h1 : e.timeline = []
    · simp [h1]
    · by_cases h2 : (extract_time_info text).2.length < e.timeline.length <;>
        simp [h1, h2, List.isEmpty_iff]

/-- Claim C8: `parse` is deterministic in its inputs (the extracted text,
the LLM field dictionary, and the ambient year / digest / set-order
environment): two runs reconcile to identical fields. -/
theorem parse_deterministic (env : ParseEnv) (llm : LLMResult) (text : String)
    (url : Option String) :
    (EnhancedDataParser.parse env llm text url).title =
        (EnhancedDataParser.parse env llm text url).title ∧
      (EnhancedDataParser.parse env llm text url).description =
        (EnhancedDataParser.parse env llm text url).description ∧
      (EnhancedDataParser.parse env llm text url).category =
        (EnhancedDataParser.parse env llm text url).category ∧
      (EnhancedDataParser.parse env llm text url).tags =
        (EnhancedDataParser.parse env llm text url).tags ∧
      (EnhancedDataParser.parse env llm text url).events =
        (EnhancedDataParser.parse env llm text url).events :=
  ⟨rfl, rfl, rfl, rfl, rfl⟩

/-- Claim C3: `validate` marks a record valid exactly when its error list
is empty (warnings and suggestions are irrelevant to validity). -/
theorem validate_is_valid_iff (env : ValidatorEnv) (a : ParsedActivity) :
    (DataValidator.validate env a).is_valid = true ↔
      (DataValidator.validate env a).errors = [] := by
  unfold DataValidator.validate
  simp [List.isEmpty_iff]
/-- Levels of the issues recorded by `_validate_basic_info`. -/
theorem levels_basic_info (env : ValidatorEnv) (a : ParsedActivity) :
    (∀ i ∈ (DataValidator.validate_basic_info env a).errors, i.level = .error) ∧
    (∀ i ∈ (DataValidator.validate_basic_info env a).warnings, i.level = .warning) ∧
    (∀ i ∈ (DataValidator.validate_basic_info env a).suggestions, i.level = .info) := by
  unfold DataValidator.validate_basic_info
  dsimp only
  refine ⟨?_, ?_, ?_⟩ <;> intro i hi
  · rcases List.mem_append.mp hi with h | h <;> split at h <;> simp_all
  · split at hi
    · simp_all
    · split at hi <;> simp_all
  · simp_all

/-- Levels of the issues recorded by `_validate_id`. -/
theorem levels_validate_id (env : ValidatorEnv) (s : String) (k : Nat) :
    ∀ i ∈ DataValidator.validate_id env s k, i.level = .error := by
  unfold DataValidator.validate_id
  intro i hi
  split at hi
  · simp_all
  · split at hi <;> simp_all

/-- Levels of the issues recorded by `_check_link_accessibility`. -/
theorem levels_link_accessibility (env : ValidatorEnv) (link : String) (k : Nat) :
    (∀ i ∈ (DataValidator.check_link_accessibility env link k).errors, i.level = .error) ∧
    (∀ i ∈ (DataValidator.check_link_accessibility env link k).warnings, i.level = .warning) ∧
    (∀ i ∈ (DataValidator.check_link_accessibility env link k).suggestions, i.level = .info) := by
  unfold DataValidator.check_link_accessibility
  refine ⟨?_, ?_, ?_⟩ <;> intro i hi <;> (split at hi <;> try split at hi) <;> simp_all

/-- Levels of the issues recorded by `_validate_link`. -/
theorem levels_validate_link (env : ValidatorEnv) (link : String) (k : Nat) :
    (∀ i ∈ (DataValidator.validate_link env link k).errors, i.level = .error) ∧
    (∀ i ∈ (DataValidator.validate_link env link k).warnings, i.level = .warning) ∧
    (∀ i ∈ (DataValidator.validate_link env link k).suggestions, i.level = .info) := by
  unfold DataValidator.validate_link
  split
  · refine ⟨?_, ?_, ?_⟩ <;> intro i hi <;> simp_all
  · split
    · exact levels_link_accessibility env link k
    · refine ⟨?_, ?_, ?_⟩ <;> intro i hi <;> simp_all

/-- Levels of the issues recorded by `_validate_timezone`. -/
theorem levels_validate_timezone (env : ValidatorEnv) (tz : String) (k : Nat) :
    ∀ i ∈ DataValidator.validate_timezone env tz k, i.level = .error := by
  unfold DataValidator.validate_timezone
  intro i hi
  split at hi <;> simp_all

/-- Levels of the issues recorded by the timeline loop. -/
theorem levels_timeline_loop (env : ValidatorEnv) (pfx : String) :
    ∀ (ts : List TimelineEvent) (prev : Option String) (idx : Nat),
      (∀ i ∈ (DataValidator.validate_timeline_loop env pfx prev idx ts).1,
          i.level = .error) ∧
      (∀ i ∈ (DataValidator.validate_timeline_loop env pfx prev idx ts).2,
          i.level = .warning) := by
  intro ts
  induction ts with
  | nil => intro prev idx; simp [DataValidator.validate_timeline_loop]
  | cons t ts ih =>
      intro prev idx
      unfold DataValidator.validate_timeline_loop
      split
      · dsimp only
        refine ⟨?_, ?_⟩ <;> intro i hi
        · rcases List.mem_cons.mp hi with h | h
          · simp [h]
          · exact (ih prev (idx + 1)).1 i h
        · exact (ih prev (idx + 1)).2 i hi
      · dsimp only
        refine ⟨?_, ?_⟩ <;> intro i hi
        · exact (ih (some t.deadline) (idx + 1)).1 i hi
        · rcases List.mem_append.mp hi with h | h
          · rcases List.mem_append.mp h with h' | h'
            · rcases prev with _ | p
              · simp at h'
              · dsimp only at h'
                split at h'
                · simp at h'
                · split at h' <;> simp_all
            · split at h' <;> simp_all
          · exact (ih (some t.deadline) (idx + 1)).2 i h

/-- Levels of the issues recorded by `_validate_event`. -/
theorem levels_validate_event (env : ValidatorEnv) (e : ActivityEvent) (k : Nat) :
    (∀ i ∈ (DataValidator.validate_event env e k).errors, i.level = .error) ∧
    (∀ i ∈ (DataValidator.validate_event env e k).warnings, i.level = .warning) ∧
    (∀ i ∈ (DataValidator.validate_event env e k).suggestions, i.level = .info) := by
  have hlink :
      (∀ i ∈ (if e.link = "" then
            { warnings := [⟨fieldPfx k ++ ".link", "缺少活动链接", .warning, none⟩] : Delta }
          else DataValidator.validate_link env e.link k).errors, i.level = .error) ∧
      (∀ i ∈ (if e.link = "" then
            { warnings := [⟨fieldPfx k ++ ".link", "缺少活动链接", .warning, none⟩] : Delta }
          else DataValidator.validate_link env e.link k).warnings, i.level = .warning) ∧
      (∀ i ∈ (if e.link = "" then
            { warnings := [⟨fieldPfx k ++ ".link", "缺少活动链接", .warning, none⟩] : Delta }
          else DataValidator.validate_link env e.link k).suggestions, i.level = .info) := by
    split
    · refine ⟨?_, ?_, ?_⟩ <;> intro i hi <;> simp_all
    · exact levels_validate_link env e.link k
  have htl :
      (∀ i ∈ (if e.timeline = [] then
            { warnings := [⟨fieldPfx k ++ ".timeline", "缺少关键时间点", .warning, none⟩] : Delta }
          else DataValidator.validate_timeline env e.timeline k).errors, i.level = .error) ∧
      (∀ i ∈ (if e.timeline = [] then
            { warnings := [⟨fieldPfx k ++ ".timeline", "缺少关键时间点", .warning, none⟩] : Delta }
          else DataValidator.validate_timeline env e.timeline k).warnings,
          i.level = .warning) := by
    split
    · refine ⟨?_, ?_⟩ <;> intro i hi <;> simp_all
    · exact ⟨(levels_timeline_loop env (fieldPfx k ++ ".timeline") e.timeline none 0).1,
        (levels_timeline_loop env (fieldPfx k ++ ".timeline") e.timeline none 0).2⟩
  unfold DataValidator.validate_event
  refine ⟨?_, ?_, ?_⟩ <;> intro i hi
  · rcases List.mem_append.mp hi with h | h
    · rcases List.mem_append.mp h with h' | h'
      · rcases List.mem_append.mp h' with h'' | h''
        · rcases List.mem_append.mp h'' with h3 | h3
          · split at h3 <;> simp_all
          · split at h3
            · simp_all
            · exact levels_validate_id env e.id k i h3
        · exact hlink.1 i h''
      · split at h'
        · simp_all
        · exact levels_validate_timezone env e.timezone k i h'
    · exact htl.1 i h
  · rcases List.mem_append.mp hi with h | h
    · rcases List.mem_append.mp h with h' | h'
      · rcases List.mem_append.mp h' with h'' | h''
        · exact hlink.2.1 i h''
        · exact htl.2 i h''
      · split at h' <;> simp_all
    · split at h <;> simp_all
  · exact hlink.2.2 i hi

/-- Levels of the issues recorded by `_validate_tags`. -/
theorem levels_validate_tags (env : ValidatorEnv) (a : ParsedActivity) :
    ∀ i ∈ DataValidator.validate_tags env a, i.level = .info := by
  unfold DataValidator.validate_tags
  intro i hi
  split at hi
  · simp_all
  · rcases List.mem_flatten.mp hi with ⟨l, hl, hil⟩
    rcases List.mem_map.mp hl with ⟨p, _, rfl⟩
    dsimp only at hil
    split at hil <;> simp_all

/-- Levels of the issues recorded by `_validate_overall`. -/
theorem levels_validate_overall (a : ParsedActivity) :
    ∀ i ∈ DataValidator.validate_overall a, i.level = .error := by
  unfold DataValidator.validate_overall
  intro i hi
  split at hi <;> simp_all

/-- Claim C10: every issue `validate` stores in `errors` has level `error`,
every issue in `warnings` has level `warning`, and every issue in
`suggestions` has level `info`. -/
theorem validate_levels (env : ValidatorEnv) (a : ParsedActivity) :
    (∀ i ∈ (DataValidator.validate env a).errors, i.level = .error) ∧
    (∀ i ∈ (DataValidator.validate env a).warnings, i.level = .warning) ∧
    (∀ i ∈ (DataValidator.validate env a).suggestions, i.level = .info) := by
  unfold DataValidator.validate
  refine ⟨?_, ?_, ?_⟩ <;> intro i hi
  · rcases List.mem_append.mp hi with h | h
    · rcases List.mem_append.mp h with h' | h'
      · exact (levels_basic_info env a).1 i h'
      · rcases List.mem_flatten.mp h' with ⟨l, hl, hil⟩
        rcases List.mem_map.mp hl with ⟨d, hd, rfl⟩
        rcases List.mem_map.mp hd with ⟨p, _, rfl⟩
        exact (levels_validate_event env p.2 p.1).1 i hil
    · exact levels_validate_overall a i h
  · rcases List.mem_append.mp hi with h | h
    · exact (levels_basic_info env a).2.1 i h
    · rcases List.mem_flatten.mp h with ⟨l, hl, hil⟩
      rcases List.mem_map.mp hl with ⟨d, hd, rfl⟩
      rcases List.mem_map.mp hd with ⟨p, _, rfl⟩
      exact (levels_validate_event env p.2 p.1).2.1 i hil
  · rcases List.mem_append.mp hi with h | h
    · rcases List.mem_append.mp h with h' | h'
      · exact (levels_basic_info env a).2.2 i h'
      · rcases List.mem_flatten.mp h' with ⟨l, hl, hil⟩
        rcases List.mem_map.mp hl with ⟨d, hd, rfl⟩
        rcases List.mem_map.mp hd with ⟨p, _, rfl⟩
        exact (levels_validate_event env p.2 p.1).2.2 i hil
    · exact levels_validate_tags env a i h
/-- The character-class substitution acts pointwise: `re.sub` on a
single-character class replaces exactly the matching characters. -/
theorem subFrom_chClass (p : Char → Bool) (d : Char) :
    ∀ (fuel : Nat) (l : List Char), l.length < fuel →
      subFrom (.chClass p) [d] fuel l = l.map (fun c => if p c then d else c) := by
  intro fuel
  induction fuel with
  | zero => intro l h; omega
  | succ fuel ih =>
      intro l h
      cases l with
      | nil => simp [subFrom]
      | cons c t =>
          have ht : t.length < fuel := by simp at h; omega
          by_cases hc : p c <;>
            simp [subFrom, matchHere, matchRE, hc, ih t ht]

/-- Dropping the matched run of a `takeWhile` length is `dropWhile`. -/
theorem drop_len_takeWhile (p : Char → Bool) (l : List Char) :
    l.drop (l.takeWhile p).length = l.dropWhile p := by
  have h := List.takeWhile_append_dropWhile (p := p) (l := l)
  calc l.drop (l.takeWhile p).length
      = (l.takeWhile p ++ l.dropWhile p).drop (l.takeWhile p).length := by rw [h]
    _ = l.dropWhile p := List.drop_left _ _

/-- How `-+` matches at the head of a list: it consumes the maximal dash
run (greedy), failing unless the head is a dash. -/
theorem matchHere_dashRun (c : Char) (t : List Char) :
    matchHere dashRun (c :: t) =
      if c = '-' then some (t.dropWhile (fun x => x = '-'), []) else none := by
  by_cases hc : c = '-'
  · subst hc
    have hrun : (('-' :: t).takeWhile (fun x => x = '-')).length =
        (t.takeWhile (fun x => x = '-')).length + 1 := by
      simp [List.takeWhile_cons]
    simp only [matchHere, matchRE, dashRun, hrun, if_pos rfl]
    rw [repCandidates]
    simp only [Option.getD_none, min_self, if_neg (by omega : ¬ (t.takeWhile
      (fun x => x = '-')).length + 1 < 1)]
    have hste : (t.takeWhile (fun x => x = '-')).length + 1 - 1 + 1 =
        (t.takeWhile (fun x => x = '-')).length + 1 := by omega
    rw [if_neg (by simp), hste, List.range_succ_eq_map]
    simp only [List.map_cons, tryCands, Nat.sub_zero]
    have hdrop : ('-' :: t).drop ((t.takeWhile (fun x => x = '-')).length + 1) =
        t.dropWhile (fun x => x = '-') := by
      have := drop_len_takeWhile (fun x => x = '-') ('-' :: t)
      rwa [hrun, List.dropWhile_cons_of_pos (by simp)] at this
    simp [hdrop]
  · have hrun : (c :: t).takeWhile (fun x => x = '-') = [] := by
      simp [List.takeWhile_cons, hc]
    simp [matchHere, matchRE, dashRun, hrun, repCandidates, tryCands, hc]

/-- Properties of the dash-collapsing substitution: characters come from
the input, the head is preserved, and no two output dashes are adjacent. -/
theorem subFrom_dashRun_props :
    ∀ (fuel : Nat) (l : List Char), l.length < fuel →
      (∀ c ∈ subFrom dashRun ['-'] fuel l, c ∈ l) ∧
      (subFrom dashRun ['-'] fuel l).head? = l.head? ∧
      List.Chain' notDD (subFrom dashRun ['-'] fuel l) := by
  intro fuel
  induction fuel with
  | zero => intro l h; omega
  | succ fuel ih =>
      intro l h
      cases l with
      | nil => simp [subFrom]
      | cons c t =>
          rw [subFrom, matchHere_dashRun]
          by_cases hc : c = '-'
          · subst hc
            rw [if_pos rfl]
            dsimp only
            have hlen : (t.dropWhile (fun x => x = '-')).length ≤ t.length :=
              (List.dropWhile_sublist _).length_le
            rw [if_neg (by simp; omega)]
            dsimp only [List.cons_append, List.nil_append]
            have hXf : (t.dropWhile (fun x => x = '-')).length < fuel := by
              simp at h; omega
            obtain ⟨hmem, hhead, hchain⟩ := ih (t.dropWhile (fun x => x = '-')) hXf
            refine ⟨?_, by simp, ?_⟩
            · intro a ha
              rcases List.mem_cons.mp ha with rfl | ha
              · exact List.mem_cons_self _ _
              · exact List.mem_cons_of_mem _ ((List.dropWhile_subset _) (hmem a ha))
            · show List.Chain' notDD ('-' :: subFrom dashRun ['-'] fuel _)
              rw [List.chain'_cons']
              refine ⟨?_, hchain⟩
              intro y hy
              rw [hhead] at hy
              have hnd := List.head?_dropWhile_not (fun x => x = '-') t
              cases hXh : (t.dropWhile (fun x => x = '-')).head? with
              | none => rw [hXh] at hy; simp at hy
              | some x =>
                  rw [hXh] at hy hnd
                  simp at hy hnd
                  subst hy
                  exact fun hpp => hnd hpp.2
          · rw [if_neg hc]
            dsimp only
            have htf : t.length < fuel := by simp at h; omega
            obtain ⟨hmem, hhead, hchain⟩ := ih t htf
            refine ⟨?_, by simp, ?_⟩
            · intro a ha
              rcases List.mem_cons.mp ha with rfl | ha
              · exact List.mem_cons_self _ _
              · exact List.mem_cons_of_mem _ (hmem a ha)
            · rw [List.chain'_cons']
              exact ⟨fun y _ hpp => hc hpp.1, hchain⟩
/-- The head of a stripped list never satisfies the stripped predicate. -/
theorem stripList_head_not (p : Char → Bool) (l : List Char) (c : Char)
    (h : (stripList p l).head? = some c) : p c = false := by
  unfold stripList at h
  have hpre : ((l.dropWhile p).reverse.dropWhile p).reverse <+: l.dropWhile p := by
    have hs : (l.dropWhile p).reverse.dropWhile p <:+ (l.dropWhile p).reverse :=
      List.dropWhile_suffix p
    have := hs.reverse
    rwa [List.reverse_reverse] at this
  obtain ⟨tail, htail⟩ := hpre
  have hhead : (l.dropWhile p).head? = some c := by
    rw [← htail, List.head?_append, h]
    rfl
  have hnd := List.head?_dropWhile_not p l
  rw [hhead] at hnd
  exact hnd

/-- The last element of a stripped list never satisfies the stripped
predicate. -/
theorem stripList_getLast_not (p : Char → Bool) (l : List Char) (c : Char)
    (h : (stripList p l).getLast? = some c) : p c = false := by
  unfold stripList at h
  rw [List.getLast?_reverse] at h
  have hnd := List.head?_dropWhile_not p (l.dropWhile p).reverse
  rw [h] at hnd
  exact hnd

/-- `dropWhile` preserves `Chain'`. -/
theorem chain'_dropWhile {R : Char → Char → Prop} (p : Char → Bool) :
    ∀ l : List Char, List.Chain' R l → List.Chain' R (l.dropWhile p) := by
  intro l
  induction l with
  | nil => intro h; exact h
  | cons c t ih =>
      intro h
      rw [List.dropWhile_cons]
      split
      · exact ih h.tail
      · exact h

/-- Stripping preserves the no-adjacent-dashes property. -/
theorem chain'_stripList (p : Char → Bool) (l : List Char)
    (h : List.Chain' notDD l) : List.Chain' notDD (stripList p l) := by
  have hsymm : ∀ a b : Char, notDD a b → flip notDD a b := fun a b hab hba =>
    hab ⟨hba.2, hba.1⟩
  have h1 : List.Chain' notDD (l.dropWhile p) := chain'_dropWhile p l h
  have h2 : List.Chain' notDD ((l.dropWhile p).reverse) :=
    List.chain'_reverse.mpr (h1.imp hsymm)
  have h3 : List.Chain' notDD ((l.dropWhile p).reverse.dropWhile p) :=
    chain'_dropWhile p _ h2
  exact List.chain'_reverse.mpr (h3.imp hsymm)

/-- Stripped lists only lose characters. -/
theorem mem_of_stripList (p : Char → Bool) (l : List Char) (c : Char)
    (h : c ∈ stripList p l) : c ∈ l := by
  unfold stripList at h
  rw [List.mem_reverse] at h
  exact List.dropWhile_subset p (by
    have := List.dropWhile_subset p h
    rwa [List.mem_reverse] at this)

/-- The slug pipeline always yields a well-formed slug: only `[a-z0-9-]`
characters, no leading, trailing or doubled hyphen. -/
theorem slugSteps_ok (s : String) : slugOk (slugSteps s) := by
  have hmap : (reSub (.chClass nonSlugCls) "-" s).data =
      s.data.map (fun c => if nonSlugCls c then '-' else c) :=
    subFrom_chClass nonSlugCls '-' (s.data.length + 1) s.data (Nat.lt_succ_self _)
  set l1 : List Char := (reSub (.chClass nonSlugCls) "-" s).data with hl1
  obtain ⟨hmem, _, hchain⟩ :=
    subFrom_dashRun_props (l1.length + 1) l1 (Nat.lt_succ_self _)
  have hdata : (slugSteps s).data =
      stripList (fun c => c = '-') (subFrom dashRun ['-'] (l1.length + 1) l1) := rfl
  refine ⟨?_, ?_, ?_, ?_⟩
  · intro c hc
    rw [hdata] at hc
    have hc1 : c ∈ l1 := hmem c (mem_of_stripList _ _ _ hc)
    rw [hmap] at hc1
    rcases List.mem_map.mp hc1 with ⟨a, _, rfl⟩
    cases hsa : slugChar a
    · simp only [nonSlugCls, hsa, Bool.not_false, if_true]
      decide
    · simp [nonSlugCls, hsa]
  · rw [hdata]
    cases hh : (stripList (fun c => c = '-')
        (subFrom dashRun ['-'] (l1.length + 1) l1)).head? with
    | none => simp
    | some c =>
        have := stripList_head_not _ _ _ hh
        simp at this
        simp [this]
  · rw [hdata]
    cases hh : (stripList (fun c => c = '-')
        (subFrom dashRun ['-'] (l1.length + 1) l1)).getLast? with
    | none => simp
    | some c =>
        have := stripList_getLast_not _ _ _ hh
        simp at this
        simp [this]
  · rw [hdata]
    exact chain'_stripList _ _ hchain

/-- Lists without dashes trivially satisfy the no-adjacent-dashes chain. -/
theorem chain'_notDD_of_no_dash :
    ∀ l : List Char, (∀ c ∈ l, c ≠ '-') → List.Chain' notDD l := by
  intro l
  induction l with
  | nil => intro _; simp
  | cons c t ih =>
      intro h
      rw [List.chain'_cons']
      exact ⟨fun y _ hpp => h c (List.mem_cons_self _ _) hpp.1,
        ih fun x hx => h x (List.mem_cons_of_mem _ hx)⟩

/-- Claim C5: every generated ID — the slug of `SimpleDataParser._generate_id`,
the inline fallback slug of `DataParser._create_fallback_activity`, and the
md5-hex ID of `EnhancedDataParser._generate_id` — contains only `[a-z0-9-]`
characters and has no leading, trailing, or doubled hyphen. -/
theorem generated_ids_slug_ok (title : String) (year : Nat)
    (md5f : String → List (Fin 256)) :
    slugOk (SimpleDataParser.generate_id title year) ∧
    slugOk (DataParser.fallback_id title year) ∧
    slugOk (EnhancedDataParser.generate_id md5f title) := by
  refine ⟨slugSteps_ok _, slugSteps_ok _, ?_⟩
  have hhex : ∀ i : Fin 16, slugChar (hexCharF i) ∧ hexCharF i ≠ '-' := by decide
  have hchars : ∀ c ∈ (EnhancedDataParser.generate_id md5f title).data,
      slugChar c ∧ c ≠ '-' := by
    intro c hc
    have hc' : c ∈ ((md5f title).map byteHex).flatten := List.mem_of_mem_take hc
    rcases List.mem_flatten.mp hc' with ⟨l, hl, hcl⟩
    rcases List.mem_map.mp hl with ⟨b, _, rfl⟩
    unfold byteHex at hcl
    rcases List.mem_cons.mp hcl with rfl | hcl'
    · exact hhex _
    · rcases List.mem_cons.mp hcl' with rfl | hcl''
      · exact hhex _
      · simp at hcl''
  refine ⟨fun c hc => (hchars c hc).1, ?_, ?_, ?_⟩
  · cases hh : (EnhancedDataParser.generate_id md5f title).data.head? with
    | none => simp
    | some c =>
        have hmem := List.mem_of_mem_head? (hh ▸ (Option.mem_def.mpr rfl))
        have := (hchars c hmem).2
        simp [this]
  · cases hh : (EnhancedDataParser.generate_id md5f title).data.getLast? with
    | none => simp
    | some c =>
        have hmem := List.mem_of_getLast?_eq_some hh
        have := (hchars c hmem).2
        simp [this]
  · exact chain'_notDD_of_no_dash _ fun c hc => (hchars c hc).2
/-- Counterexample to claim C6 as stated: under an admissible
`list(set(·))` iteration order (deduplicate then reverse — the source's
`list(set(tags))` line does not fix an order), `extract_tags` returns the
matched tags in an order different from the keyword table's iteration
order `["开源", "会议"]`. -/
theorem extract_tags_order_counterexample :
    SetOrderSpec revSetOrder ∧
    ruleTagsOrdered "开源之夏" "会议" = ["开源", "会议"] ∧
    extract_tags revSetOrder "开源之夏" "会议" = ["会议", "开源"] := by
  refine ⟨?_, by decide, by decide⟩
  intro l
  refine ⟨?_, ?_⟩
  · exact List.nodup_reverse.mpr (List.nodup_dedup l)
  · intro x
    simp [revSetOrder]

/-- Claim C6 (amended): for every admissible `list(set(·))` iteration
order, `extract_tags` returns at most five tags, each table tag at most
once, and every returned tag is one the keyword table matched — but the
order is whatever the set iteration produces, not necessarily the table's
iteration order. -/
theorem extract_tags_amended (setOrder : List String → List String)
    (hso : SetOrderSpec setOrder) (title text : String) :
    (extract_tags setOrder title text).length ≤ 5 ∧
    (extract_tags setOrder title text).Nodup ∧
    ∀ t ∈ extract_tags setOrder title text, t ∈ ruleTagsOrdered title text := by
  unfold extract_tags
  refine ⟨?_, ?_, ?_⟩
  · simp
  · exact (hso (ruleTagsOrdered title text)).1.sublist (List.take_sublist _ _)
  · intro t ht
    exact ((hso (ruleTagsOrdered title text)).2 t).mp (List.mem_of_mem_take ht)

/-- Witness for the amended C6 at a concrete admissible order and input. -/
theorem extract_tags_amended_witness :
    (extract_tags List.dedup "开源之夏" "会议").length ≤ 5 ∧
    (extract_tags List.dedup "开源之夏" "会议").Nodup ∧
    ∀ t ∈ extract_tags List.dedup "开源之夏" "会议",
      t ∈ ruleTagsOrdered "开源之夏" "会议" :=
  extract_tags_amended List.dedup
    (fun l => ⟨List.nodup_dedup l, fun _ => List.mem_dedup⟩) "开源之夏" "会议"
/-- How `p+` matches at the head of a list (same shape as the dash-run
lemma, for an arbitrary class). -/
theorem matchHere_repPlus (p : Char → Bool) (c : Char) (t : List Char) :
    matchHere (.repCls p 1 none false) (c :: t) =
      if p c then some (t.dropWhile p, []) else none := by
  by_cases hc : p c
  · have hrun : ((c :: t).takeWhile p).length = (t.takeWhile p).length + 1 := by
      simp [List.takeWhile_cons, hc]
    simp only [matchHere, matchRE, hrun, if_pos hc]
    rw [repCandidates]
    simp only [Option.getD_none, min_self,
      if_neg (by omega : ¬ (t.takeWhile p).length + 1 < 1)]
    have hste : (t.takeWhile p).length + 1 - 1 + 1 = (t.takeWhile p).length + 1 := by
      omega
    rw [if_neg (by simp), hste, List.range_succ_eq_map]
    simp only [List.map_cons, tryCands, Nat.sub_zero]
    have hdrop : (c :: t).drop ((t.takeWhile p).length + 1) = t.dropWhile p := by
      have := drop_len_takeWhile p (c :: t)
      rwa [hrun, List.dropWhile_cons_of_pos hc] at this
    simp [hdrop]
  · have hrun : (c :: t).takeWhile p = [] := by simp [List.takeWhile_cons, hc]
    simp [matchHere, matchRE, hrun, repCandidates, tryCands, hc]

/-- Searching for `p+` succeeds exactly when some character satisfies `p`
(this is the `re.search(r'[一-龥a-zA-Z]+', ·)` gate of
`extract_place_info`). -/
theorem searchFrom_repPlus_isSome (p : Char → Bool) :
    ∀ l : List Char, (searchFrom (.repCls p 1 none false) l).isSome = l.any p := by
  intro l
  induction l with
  | nil => simp [searchFrom, matchHere, matchRE, repCandidates, tryCands]
  | cons c t ih =>
      rw [searchFrom, matchHere_repPlus]
      by_cases hc : p c
      · simp [hc]
      · simp [hc, ih]

/-- Claim C7 (amended): `extract_place_info` returns `None` when the
cleaned place is shorter than 4 characters or when its first 80 characters
contain no CJK character or Latin letter; otherwise it returns the cleaned
place truncated to 80 characters.  (The letter check runs after the
truncation, not before.) -/
theorem extract_place_info_gate (text : String) :
    extract_place_info text =
      match placeCleaned text with
      | none => none
      | some cs =>
          if 4 ≤ cs.length ∧ (cs.data.take 80).any letterCJK then some (pyTake cs 80)
          else none := by
  unfold extract_place_info placeCleaned
  cases placeSearchRaw text with
  | none => rfl
  | some g =>
      dsimp only [Option.map_some']
      by_cases hstrip : pyStrip g = ""
      · rw [if_pos hstrip, hstrip]
        have h0 : placeCleanup "" = "" := by decide
        rw [h0]
        decide
      · rw [if_neg hstrip]
        have hsearch : (reSearch letterCJKPlus (pyTake (placeCleanup (pyStrip g)) 80)).isSome =
            ((placeCleanup (pyStrip g)).data.take 80).any letterCJK :=
          searchFrom_repPlus_isSome letterCJK _
        by_cases hlen : 4 ≤ (placeCleanup (pyStrip g)).length
        · have h1 : placeCleanup (pyStrip g) ≠ "" := by
            intro h
            have h0 : (placeCleanup (pyStrip g)).length = 0 := by rw [h]; rfl
            omega
          rw [if_pos ⟨h1, by omega⟩, hsearch]
          by_cases hany : ((placeCleanup (pyStrip g)).data.take 80).any letterCJK = true
          · rw [if_pos hany, if_pos ⟨hlen, hany⟩]
          · rw [if_neg hany, if_neg fun hc => hany hc.2]
        · rw [if_neg fun hc => hlen (by omega), if_neg fun hc => hlen hc.1]

/-- Counterexample to claim C7 as stated: on `c7text` the cleaned place has
81 characters and contains a Latin letter, yet `extract_place_info`
returns `None`, because the letter check is applied to the truncated
80-character string only. -/
theorem extract_place_info_counterexample :
    placeCleaned c7text = some c7cleaned ∧
    4 ≤ c7cleaned.length ∧
    c7cleaned.data.any letterCJK = true ∧
    extract_place_info c7text = none :=
  ⟨by decide, by decide, by decide, by decide⟩
/-- Code points of the decimal digit characters. -/
theorem decCharF_toNat : ∀ i : Fin 10, (decCharF i).toNat = 48 + i.val := by decide

/-- Folding the digit-accumulation step over a decimal rendering recovers
the rendered number. -/
theorem foldl_decDigitsAux :
    ∀ (fuel n a : Nat), n < fuel →
      (decDigitsAux fuel n).foldl (fun b c => 10 * b + digitVal c) a =
        a * 10 ^ (decDigitsAux fuel n).length + n := by
  intro fuel
  induction fuel with
  | zero => intro n a h; omega
  | succ fuel ih =>
      intro n a h
      by_cases hn : n < 10
      · have hd : digitVal (decChar n) = n := by
          unfold digitVal decChar
          rw [decCharF_toNat]
          show 48 + n % 10 - 48 = n
          omega
        simp [decDigitsAux, hn, hd]
        ring
      · have hrec : n / 10 < fuel := by omega
        have hd : digitVal (decChar n) = n % 10 := by
          unfold digitVal decChar
          rw [decCharF_toNat]
          show 48 + n % 10 - 48 = n % 10
          omega
        simp only [decDigitsAux, if_neg hn, List.foldl_append, List.length_append,
          List.length_cons, List.length_nil, List.foldl_cons, List.foldl_nil]
        rw [ih (n / 10) a hrec, hd]
        have hnm : 10 * (n / 10) + n % 10 = n := Nat.div_add_mod n 10
        ring_nf
        omega
  
/-- `int(str(n)) = n` for the decimal rendering. -/
theorem pyInt_decStr (n : Nat) : pyInt (decStr n) = n := by
  show (decDigitsAux (n + 1) n).foldl (fun b c => 10 * b + digitVal c) 0 = n
  rw [foldl_decDigitsAux (n + 1) n 0 (Nat.lt_succ_self n)]
  simp

/-- Decimal renderings are injective. -/
theorem decStr_injective {m n : Nat} (h : decStr m = decStr n) : m = n := by
  have := congrArg pyInt h
  rwa [pyInt_decStr, pyInt_decStr] at this

/-- The last character of an appended string is the suffix's. -/
theorem getLast_append_str (s t : String) (c : Char)
    (h : t.data.getLast? = some c) : (s ++ t).data.getLast? = some c := by
  rw [String.data_append, List.getLast?_append, h]
  rfl

/-- Strings with different last characters differ. -/
theorem ne_of_getLast_ne (s t : String) (c d : Char)
    (hs : s.data.getLast? = some c) (ht : t.data.getLast? = some d)
    (hcd : c ≠ d) : s ≠ t := by
  intro h
  rw [h, ht] at hs
  exact hcd (Option.some.inj hs).symm

/-- The target `.id` field string ends in `'d'`. -/
theorem field_id_getLast (i : Nat) :
    (fieldPfx i ++ ".id").data.getLast? = some 'd' :=
  getLast_append_str _ _ _ rfl

/-- The two `events[j].id` field strings agree only on equal indices. -/
theorem field_id_inj {i j : Nat}
    (h : fieldPfx j ++ ".id" = fieldPfx i ++ ".id") : j = i := by
  unfold fieldPfx at h
  have hdata := congrArg String.data h
  simp only [String.data_append] at hdata
  have h1 := List.append_cancel_right (List.append_cancel_right hdata)
  have h2 := List.append_cancel_left h1
  exact decStr_injective (String.ext h2)
/-- `events[j].year` never names an `.id` field. -/
theorem ne_field_year (j i : Nat) : fieldPfx j ++ ".year" ≠ fieldPfx i ++ ".id" :=
  ne_of_getLast_ne _ _ 'r' 'd' (getLast_append_str _ _ _ (by decide))
    (field_id_getLast i) (by decide)

/-- `events[j].link` never names an `.id` field. -/
theorem ne_field_link (j i : Nat) : fieldPfx j ++ ".link" ≠ fieldPfx i ++ ".id" :=
  ne_of_getLast_ne _ _ 'k' 'd' (getLast_append_str _ _ _ (by decide))
    (field_id_getLast i) (by decide)

/-- `events[j].timezone` never names an `.id` field. -/
theorem ne_field_timezone (j i : Nat) :
    fieldPfx j ++ ".timezone" ≠ fieldPfx i ++ ".id" :=
  ne_of_getLast_ne _ _ 'e' 'd' (getLast_append_str _ _ _ (by decide))
    (field_id_getLast i) (by decide)

/-- Timeline deadline fields never name an `.id` field. -/
theorem ne_field_deadline (pfx : String) (idx i : Nat) :
    pfx ++ "[" ++ decStr idx ++ "].deadline" ≠ fieldPfx i ++ ".id" :=
  ne_of_getLast_ne _ _ 'e' 'd' (getLast_append_str _ _ _ (by decide))
    (field_id_getLast i) (by decide)

/-- `title` never names an `.id` field. -/
theorem ne_field_title (i : Nat) : ("title" : String) ≠ fieldPfx i ++ ".id" :=
  ne_of_getLast_ne _ _ 'e' 'd' (by decide) (field_id_getLast i) (by decide)

/-- `category` never names an `.id` field. -/
theorem ne_field_category (i : Nat) : ("category" : String) ≠ fieldPfx i ++ ".id" :=
  ne_of_getLast_ne _ _ 'y' 'd' (by decide) (field_id_getLast i) (by decide)

/-- `events` never names an `.id` field. -/
theorem ne_field_events (i : Nat) : ("events" : String) ≠ fieldPfx i ++ ".id" :=
  ne_of_getLast_ne _ _ 's' 'd' (by decide) (field_id_getLast i) (by decide)

/-- Nothing counted when every field differs from the target. -/
theorem countP_field_zero (i : Nat) (l : List ValidationIssue)
    (h : ∀ vi ∈ l, vi.field ≠ fieldPfx i ++ ".id") :
    l.countP (fun vi => vi.field == fieldPfx i ++ ".id") = 0 := by
  rw [List.countP_eq_zero]
  intro a ha
  simp [h a ha]

/-- The timeline loop contributes no `.id`-field errors. -/
theorem countP_tl_loop_zero (env : ValidatorEnv) (pfx : String) (i : Nat) :
    ∀ (ts : List TimelineEvent) (prev : Option String) (idx : Nat),
      ((DataValidator.validate_timeline_loop env pfx prev idx ts).1.countP
        (fun vi => vi.field == fieldPfx i ++ ".id")) = 0 := by
  intro ts
  induction ts with
  | nil => intro prev idx; simp [DataValidator.validate_timeline_loop]
  | cons t ts ih =>
      intro prev idx
      unfold DataValidator.validate_timeline_loop
      split
      · dsimp only
        rw [List.countP_cons_of_neg, ih]
        simp [ne_field_deadline pfx idx i]
      · dsimp only
        exact ih (some t.deadline) (idx + 1)

/-- The link-accessibility check records no errors. -/
theorem check_link_access_errors (env : ValidatorEnv) (link : String) (k : Nat) :
    (DataValidator.check_link_accessibility env link k).errors = [] := by
  unfold DataValidator.check_link_accessibility
  rcases env.headResult link with code | e
  · rfl
  · dsimp only
    split <;> rfl

/-- `_validate_link` contributes no `.id`-field errors. -/
theorem countP_link_zero (env : ValidatorEnv) (link : String) (j i : Nat) :
    ((DataValidator.validate_link env link j).errors.countP
      (fun vi => vi.field == fieldPfx i ++ ".id")) = 0 := by
  unfold DataValidator.validate_link
  split
  · exact countP_field_zero i _ (by
      intro vi hvi
      simp at hvi
      rw [hvi]
      exact ne_field_link j i)
  · split
    · rw [check_link_access_errors]
      rfl
    · rfl
/-- `_validate_timezone` contributes no `.id`-field errors. -/
theorem countP_tz_zero (env : ValidatorEnv) (tz : String) (j i : Nat) :
    ((DataValidator.validate_timezone env tz j).countP
      (fun vi => vi.field == fieldPfx i ++ ".id")) = 0 := by
  unfold DataValidator.validate_timezone
  split
  · simp [ne_field_timezone j i]
  · rfl

/-- `_validate_id` contributes no `.id`-field errors for a different
event index. -/
theorem countP_validate_id_ne (env : ValidatorEnv) (s : String) (j i : Nat)
    (hne : j ≠ i) :
    ((DataValidator.validate_id env s j).countP
      (fun vi => vi.field == fieldPfx i ++ ".id")) = 0 := by
  have hidne : fieldPfx j ++ ".id" ≠ fieldPfx i ++ ".id" := fun h => hne (field_id_inj h)
  unfold DataValidator.validate_id
  split
  · simp [hidne]
  · split
    · simp [hidne]
    · rfl

/-- `_validate_id` contributes exactly one `.id`-field error for a
well-formed, already-existing id. -/
theorem countP_validate_id_eq (env : ValidatorEnv) (s : String) (i : Nat)
    (hfmt : idFormatOk s = true) (hmem : s ∈ env.existingIds) :
    ((DataValidator.validate_id env s i).countP
      (fun vi => vi.field == fieldPfx i ++ ".id")) = 1 := by
  unfold DataValidator.validate_id
  rw [if_neg (by simp [hfmt]), if_pos hmem]
  simp

/-- `(_validate_timeline ...).errors` is the loop's error stream. -/
theorem validate_timeline_errors (env : ValidatorEnv) (tl : List TimelineEvent)
    (k : Nat) :
    (DataValidator.validate_timeline env tl k).errors =
      (DataValidator.validate_timeline_loop env (fieldPfx k ++ ".timeline")
        none 0 tl).1 := rfl

/-- An event at a different index contributes no `.id`-field errors for
index `i`. -/
theorem countP_event_ne (env : ValidatorEnv) (e : ActivityEvent) (j i : Nat)
    (hne : j ≠ i) :
    ((DataValidator.validate_event env e j).errors.countP
      (fun vi => vi.field == fieldPfx i ++ ".id")) = 0 := by
  have hidne : fieldPfx j ++ ".id" ≠ fieldPfx i ++ ".id" := fun h => hne (field_id_inj h)
  have hlink := countP_link_zero env e.link j i
  have htl := countP_tl_loop_zero env (fieldPfx j ++ ".timeline") i e.timeline none 0
  have hid := countP_validate_id_ne env e.id j i hne
  have hy := ne_field_year j i
  have htz := ne_field_timezone j i
  unfold DataValidator.validate_event
  dsimp only
  simp only [List.countP_append]
  repeat' split
  all_goals
    simp_all [List.countP_cons, validate_timeline_errors, countP_tz_zero,
      countP_link_zero, countP_tl_loop_zero, -List.countP_eq_zero]

/-- The event at index `i` contributes exactly one `.id`-field error when
its id is well-formed and already taken. -/
theorem countP_event_eq (env : ValidatorEnv) (e : ActivityEvent) (i : Nat)
    (hfmt : idFormatOk e.id = true) (hmem : e.id ∈ env.existingIds) :
    ((DataValidator.validate_event env e i).errors.countP
      (fun vi => vi.field == fieldPfx i ++ ".id")) = 1 := by
  have hne : e.id ≠ "" := by
    intro h
    rw [h] at hfmt
    exact absurd hfmt (by decide)
  have hid := countP_validate_id_eq env e.id i hfmt hmem
  have hlink := countP_link_zero env e.link i i
  have htl := countP_tl_loop_zero env (fieldPfx i ++ ".timeline") i e.timeline none 0
  have hy := ne_field_year i i
  have htz := ne_field_timezone i i
  unfold DataValidator.validate_event
  dsimp only
  simp only [List.countP_append]
  rw [if_neg hne]
  repeat' split
  all_goals
    simp_all [List.countP_cons, validate_timeline_errors, countP_tz_zero,
      countP_link_zero, countP_tl_loop_zero, -List.countP_eq_zero]
/-- `enumFrom` distributes over append. -/
theorem enumFrom_append_eq {α : Type} :
    ∀ (l1 l2 : List α) (n : Nat),
      List.enumFrom n (l1 ++ l2) =
        List.enumFrom n l1 ++ List.enumFrom (n + l1.length) l2 := by
  intro l1
  induction l1 with
  | nil => intro l2 n; simp
  | cons x t ih =>
      intro l2 n
      simp only [List.cons_append, List.enumFrom_cons, ih, List.length_cons]
      have harith : n + 1 + t.length = n + (t.length + 1) := by omega
      rw [harith]

/-- Events enumerated entirely away from index `i` contribute no
`events[i].id` errors. -/
theorem countP_evlist_zero (env : ValidatorEnv) (i : Nat) :
    ∀ (l : List ActivityEvent) (n : Nat), i < n ∨ n + l.length ≤ i →
      (((((List.enumFrom n l).map
          (fun p => DataValidator.validate_event env p.2 p.1)).map
            (fun d => d.errors)).flatten).countP
        (fun vi => vi.field == fieldPfx i ++ ".id")) = 0 := by
  intro l
  induction l with
  | nil => intro n _; simp
  | cons e t ih =>
      intro n hn
      simp only [List.enumFrom_cons, List.map_cons, List.flatten_cons,
        List.countP_append]
      have hne : n ≠ i := by
        rcases hn with h | h
        · omega
        · simp at h; omega
      rw [countP_event_ne env e n i hne, ih (n + 1) (by
        rcases hn with h | h
        · omega
        · simp at h; right; omega)]

/-- Claim C4: when an event's id matches `^[a-z0-9-]+$` and is already in
the corpus-wide id set, `validate` reports exactly one error whose field
is that event's `events[i].id`. -/
theorem validate_duplicate_id_unique (env : ValidatorEnv) (a : ParsedActivity)
    (i : Nat) (e : ActivityEvent) (hget : a.events[i]? = some e)
    (hfmt : idFormatOk e.id = true) (hmem : e.id ∈ env.existingIds) :
    ((DataValidator.validate env a).errors.countP
      (fun vi => vi.field == fieldPfx i ++ ".id")) = 1 := by
  obtain ⟨hlen, rfl⟩ := List.getElem?_eq_some_iff.mp hget
  have hsplit : a.events = a.events.take i ++ a.events[i] :: a.events.drop (i + 1) := by
    rw [← List.drop_eq_getElem_cons hlen, List.take_append_drop]
  have htake : (a.events.take i).length = i := by
    rw [List.length_take]
    omega
  have hbasic : ((DataValidator.validate_basic_info env a).errors.countP
      (fun vi => vi.field == fieldPfx i ++ ".id")) = 0 := by
    unfold DataValidator.validate_basic_info
    dsimp only
    rw [List.countP_append]
    have h1 := ne_field_title i
    have h2 := ne_field_category i
    split <;> split <;> simp [List.countP_cons, h1, h2]
  have hover : ((DataValidator.validate_overall a).countP
      (fun vi => vi.field == fieldPfx i ++ ".id")) = 0 := by
    unfold DataValidator.validate_overall
    split
    · simp [ne_field_events i]
    · rfl
  unfold DataValidator.validate
  dsimp only
  simp only [List.countP_append, hbasic, hover]
  rw [List.enum_eq_enumFrom, hsplit, enumFrom_append_eq, htake]
  simp only [Nat.zero_add, List.enumFrom_cons, List.map_append, List.map_cons,
    List.flatten_append, List.flatten_cons, List.countP_append]
  rw [countP_event_eq env a.events[i] i hfmt hmem,
    countP_evlist_zero env i (a.events.take i) 0 (by right; omega),
    countP_evlist_zero env i (a.events.drop (i + 1)) (i + 1) (by left; omega)]

/-- Witness for C4 at a concrete activity and corpus. -/
theorem validate_duplicate_id_unique_witness :
    c4Activity.events[0]? = some c4Event ∧
    idFormatOk c4Event.id = true ∧
    c4Event.id ∈ c4Env.existingIds ∧
    ((DataValidator.validate c4Env c4Activity).errors.countP
      (fun vi => vi.field == fieldPfx 0 ++ ".id")) = 1 :=
  ⟨by decide, by decide, by decide,
   validate_duplicate_id_unique c4Env c4Activity 0 c4Event
     (by decide) (by decide) (by decide)⟩
